import Mathlib

/-!
Shallow embedding of the danmaku (bullet-comment) rendering engine
(`DanmakuEngine` in the repository's front-end source).

Timestamps, pixel widths and speeds are modelled as rationals; DOM
elements are modelled as `Slot` records holding exactly the style fields
the engine reads or writes.  The text-measurement oracle
(`measureText`, a DOM read) and the container's `clientWidth` /
`clientHeight` are passed in as parameters.
-/

namespace DanmakuSpec

/-- A rendered comment slot: the DOM element of the pool, restricted to the
style fields the engine reads or writes.  `visible = false` models
`style.display = "none"`, `visible = true` models `"block"`.
`transform = some d` models `translateX(-d px)`; `none` models the cleared
transform `""`. -/
structure Slot where
  visible : Bool
  content : String
  color : String
  fontSize : ℚ
  opacity : ℚ
  top : ℚ
  left : ℚ
  transitionMs : ℚ
  transform : Option ℚ
  deriving DecidableEq, Repr

/-- A freshly created pool element (`createPool` / `getDanmakuElement`):
hidden, with empty content and styles. -/
def initSlot : Slot :=
  { visible := false, content := "", color := "", fontSize := 0, opacity := 0
    top := 0, left := 0, transitionMs := 0, transform := none }

/-- An incoming comment record `{ content, color, font_size, username }`.
Optional fields are `Option`; the JS falsy coalescing `x || d` is modelled
by `jsOrStr` / `jsOrNum` below. -/
structure Danmaku where
  content : String
  color : Option String
  font_size : Option ℚ
  username : Option String
  deriving DecidableEq, Repr

/-- JS `s || d` for a possibly-missing string field: the empty string is
falsy, every other string is truthy. -/
def jsOrStr (v : Option String) (d : String) : String :=
  match v with
  | none => d
  | some s => if s = "" then d else s

/-- JS `x || d` for a possibly-missing numeric field: `0` is falsy, every
other (finite) number is truthy. -/
def jsOrNum (v : Option ℚ) (d : ℚ) : ℚ :=
  match v with
  | none => d
  | some x => if x = 0 then d else x

/-- JS division restricted to finite results: `a / b` with `b = 0` yields
`Infinity` or `NaN` (never a finite number), modelled as `none`. -/
def jsDiv (a b : ℚ) : Option ℚ :=
  if b = 0 then none else some (a / b)

/-- The default comment color `'#FFFFFF'` of `danmaku.color || '#FFFFFF'`. -/
def defaultColor : String := "#FFFFFF"

/-- The default font size of `danmaku.font_size || 24`. -/
def defaultFontSize : ℚ := 24

/-- `this.trackHeight = 30` — lane height in pixels. -/
def trackHeight : ℚ := 30

/-- `this.trackGap = 5` — inter-lane gap in pixels. -/
def trackGap : ℚ := 5

/-- `this.poolSize = 50` — number of pre-created pool elements. -/
def poolSize : ℕ := 50

/-- Engine state: the mutable fields of `DanmakuEngine`.  `numTracks` is
kept implicitly as `trackStatus.length` (every assignment in the source
sets both together and keeps them equal). -/
structure Engine where
  trackStatus : List ℚ
  pool : List Slot
  speed : ℚ
  opacity : ℚ
  enabled : Bool
  deriving DecidableEq, Repr

/-- `calculateTracks`: `numTracks = floor(containerHeight / (trackHeight
+ trackGap))`, and `trackStatus` is re-filled with zeros. -/
def calculateTracks (e : Engine) (containerHeight : ℚ) : Engine :=
  { e with trackStatus :=
      List.replicate (containerHeight / (trackHeight + trackGap)).floor.toNat 0 }

/-- The constructor plus `init()`: lanes derived from the container
height, `poolSize` hidden elements pre-created, `speed = 100`,
`opacity = 1`, `enabled = true`. -/
def initEngine (containerHeight : ℚ) : Engine :=
  calculateTracks
    { trackStatus := [], pool := List.replicate poolSize initSlot
      speed := 100, opacity := 1, enabled := true }
    containerHeight

/-- The lane-scan loop of `add`: the first index `i` (from `0` upward)
with `now >= trackStatus[i]`, else `none` (`trackIndex === -1`). -/
def findTrack (status : List ℚ) (now : ℚ) : Option ℕ :=
  match status with
  | [] => none
  | t :: rest => if t ≤ now then some 0 else (findTrack rest now).map (· + 1)

/-- The pool scan of `getDanmakuElement`: index of the first element with
`style.display === "none"`. -/
def findFreeIdx (pool : List Slot) : Option ℕ :=
  match pool with
  | [] => none
  | s :: rest => if s.visible = false then some 0 else (findFreeIdx rest).map (· + 1)

/-- `getDanmakuElement`: reuse the first hidden element; if none exists,
create a new element and append it to the pool.  Returns the (possibly
grown) pool and the index of the element handed out. -/
def getDanmakuElement (pool : List Slot) : List Slot × ℕ :=
  match findFreeIdx pool with
  | some i => (pool, i)
  | none => (pool ++ [initSlot], pool.length)

/-- `recycleDanmakuElement(el)`: hide the element, clear its transform and
its content. -/
def recycleSlot (s : Slot) : Slot :=
  { s with visible := false, transform := none, content := "" }

/-- The engine-level recycle of the deferred `setTimeout` callback,
addressed by pool index. -/
def recycleEngine (e : Engine) (i : ℕ) : Engine :=
  { e with pool := e.pool.set i (recycleSlot (e.pool.getD i initSlot)) }

/-- The record of one successful admission: the lane reserved, the pool
index of the slot bound, the admission time and the computed scroll
duration (also the delay of the scheduled recycle callback). -/
structure Res where
  lane : ℕ
  slotIdx : ℕ
  start : ℚ
  dur : ℚ
  deriving DecidableEq, Repr

/-- `add(danmaku)`, with the admission record made explicit.  `measure`
is the `measureText` oracle and `containerWidth` the container's
`clientWidth`.  Returns the new engine state and `some` admission record
on success, `none` when the comment is suppressed or dropped. -/
def addFull (measure : String → ℚ → ℚ) (containerWidth : ℚ) (e : Engine)
    (now : ℚ) (d : Danmaku) : Engine × Option Res :=
  if e.enabled = false then (e, none) else
  match findTrack e.trackStatus now with
  | none => (e, none)
  | some trackIndex =>
    let pe := getDanmakuElement e.pool
    let fs := jsOrNum d.font_size defaultFontSize
    let textWidth := measure d.content fs
    let totalDistance := containerWidth + textWidth
    let duration := totalDistance / e.speed * 1000
    let sl : Slot :=
      { visible := true
        content := d.content
        color := jsOrStr d.color defaultColor
        fontSize := fs
        opacity := e.opacity
        top := (trackIndex : ℚ) * (trackHeight + trackGap)
        left := containerWidth
        transitionMs := duration
        transform := some totalDistance }
    ({ e with
        pool := pe.1.set pe.2 sl
        trackStatus := e.trackStatus.set trackIndex (now + duration) },
      some { lane := trackIndex, slotIdx := pe.2, start := now, dur := duration })

/-- `add(danmaku)` as a state transformer. -/
def add (measure : String → ℚ → ℚ) (containerWidth : ℚ) (e : Engine)
    (now : ℚ) (d : Danmaku) : Engine :=
  (addFull measure containerWidth e now d).1

/-- `el.style.display = "none"` applied in `setEnabled(false)` and
`clear()`: only the visibility changes. -/
def hideSlot (s : Slot) : Slot :=
  { s with visible := false }

/-- `setEnabled(enabled)`: store the flag; on disabling, hide every pool
element and zero-fill `trackStatus`. -/
def setEnabled (e : Engine) (flag : Bool) : Engine :=
  let e1 := { e with enabled := flag }
  if flag then e1
  else
    { e1 with pool := e1.pool.map hideSlot
              trackStatus := List.replicate e1.trackStatus.length 0 }

/-- `setOpacity(opacity)`: store the value and apply it to every pool
element. -/
def setOpacity (e : Engine) (v : ℚ) : Engine :=
  { e with opacity := v, pool := e.pool.map (fun s => { s with opacity := v }) }

/-- `setSpeed(speedMultiplier)`: `this.speed = 100 * speedMultiplier`. -/
def setSpeed (e : Engine) (m : ℚ) : Engine :=
  { e with speed := 100 * m }

/-- `clear()`: hide every pool element and zero-fill `trackStatus`. -/
def clearAll (e : Engine) : Engine :=
  { e with pool := e.pool.map hideSlot
           trackStatus := List.replicate e.trackStatus.length 0 }

/-- The events the single-threaded event loop can deliver to the engine:
an `add` call, a deferred recycle callback, the configuration setters,
`clear`, and the resize listener (which re-runs `calculateTracks`). -/
inductive Ev where
  | add (now : ℚ) (d : Danmaku) (cw : ℚ)
  | recycle (i : ℕ)
  | setEnabled (b : Bool)
  | setSpeed (m : ℚ)
  | setOpacity (v : ℚ)
  | clearAll
  | resize (h : ℚ)

/-- One event applied to the engine state. -/
def step (measure : String → ℚ → ℚ) (e : Engine) : Ev → Engine
  | Ev.add now d cw => add measure cw e now d
  | Ev.recycle i => recycleEngine e i
  | Ev.setEnabled b => setEnabled e b
  | Ev.setSpeed m => setSpeed e m
  | Ev.setOpacity v => setOpacity e v
  | Ev.clearAll => clearAll e
  | Ev.resize h => calculateTracks e h

/-- A whole event trace applied to the engine state. -/
def run (measure : String → ℚ → ℚ) (e : Engine) (evs : List Ev) : Engine :=
  evs.foldl (step measure) e

/-- One event applied to the engine state paired with the log of
admission records, appended to by each successful `add`. -/
def stepLog (measure : String → ℚ → ℚ) (s : Engine × List Res) :
    Ev → Engine × List Res
  | Ev.add now d cw =>
      let er := addFull measure cw s.1 now d
      (er.1, s.2 ++ er.2.toList)
  | ev => (step measure s.1 ev, s.2)

/-- A whole event trace applied to state-plus-log. -/
def runLog (measure : String → ℚ → ℚ) (s : Engine × List Res)
    (evs : List Ev) : Engine × List Res :=
  evs.foldl (stepLog measure) s

/-- Number of visible (in-flight) pool elements. -/
def countVisible (pool : List Slot) : ℕ :=
  (pool.filter (fun s => s.visible)).length

/-- A whole event trace applied to the engine paired with the running
maximum of simultaneously visible slots seen after each event. -/
def runPeak (measure : String → ℚ → ℚ) (s : Engine × ℕ)
    (evs : List Ev) : Engine × ℕ :=
  evs.foldl
    (fun s ev =>
      let e1 := step measure s.1 ev
      (e1, max s.2 (countVisible e1.pool)))
    s

/-- Lane `i` is available at time `now`: the lane exists and
`now >= trackStatus[i]`. -/
def laneAvailable (status : List ℚ) (now : ℚ) (i : ℕ) : Prop :=
  ∃ t, status[i]? = some t ∧ t ≤ now

/-- The admissions of one lane, in admission order. -/
def laneResList (lane : ℕ) (log : List Res) : List Res :=
  log.filter (fun r => r.lane == lane)

/-- Two reservation intervals `[start, start + dur)` have no common
instant. -/
def noOverlap (r1 r2 : Res) : Prop :=
  ∀ t : ℚ, ¬(r1.start ≤ t ∧ t < r1.start + r1.dur ∧
             r2.start ≤ t ∧ t < r2.start + r2.dur)

/-! Concrete inputs used by witnesses: a constant measurement oracle and a
plain comment record. -/

/-- A measurement oracle reporting a 100-pixel text width for every
string. -/
def measure0 : String → ℚ → ℚ := fun _ _ => 100

/-- A plain comment record with no optional fields. -/
def dmk0 : Danmaku :=
  { content := "hi", color := none, font_size := none, username := none }

/-- A one-lane engine whose lane is reserved through time 5. -/
def eSat : Engine :=
  { trackStatus := [5], pool := [], speed := 100, opacity := 1, enabled := true }

/-- The scroll duration `add` computes for a comment admitted by the
engine `e`: `(containerWidth + textWidth) / speed * 1000`. -/
def admissionDuration (measure : String → ℚ → ℚ) (cw : ℚ) (e : Engine)
    (d : Danmaku) : ℚ :=
  (cw + measure d.content (jsOrNum d.font_size defaultFontSize)) / e.speed * 1000

/-- Every pool element is hidden. -/
def allHidden (e : Engine) : Prop :=
  ∀ s ∈ e.pool, s.visible = false

/-- The event is an `add` call or a deferred recycle callback. -/
def AddRecycleEv (ev : Ev) : Prop :=
  (∃ i, ev = Ev.recycle i) ∨ ∃ now d cw, ev = Ev.add now d cw

/-- Every `setSpeed` among the events carries a multiplier in the UI
range `[0.5, 2.0]`. -/
def SpeedOkEv (ev : Ev) : Prop :=
  ∀ m, ev = Ev.setSpeed m → (1 / 2 : ℚ) ≤ m ∧ m ≤ 2

/-- Events that do not reset the lane table: everything except
`setEnabled(false)`, `clear()` and resize. -/
def C2Allowed (ev : Ev) : Prop :=
  match ev with
  | Ev.setEnabled b => b = true
  | Ev.clearAll => False
  | Ev.resize _ => False
  | _ => True

/-- Successive admissions of each lane are separated: each starts no
earlier than the previous one ends. -/
def ResChain (log : List Res) : Prop :=
  ∀ lane, List.Chain' (fun r1 r2 => r1.start + r1.dur ≤ r2.start)
    (laneResList lane log)

/-- The lane table dominates the log: each lane's `freeAt` equals the end
of its most recent admission (when one exists). -/
def StatusSync (e : Engine) (log : List Res) : Prop :=
  ∀ lane r, (laneResList lane log).getLast? = some r →
    e.trackStatus[lane]? = some (r.start + r.dur)

/-! Lemmas about the lane scan. -/

theorem laneAvailable_cons_zero {t : ℚ} {rest : List ℚ} {now : ℚ} :
    laneAvailable (t :: rest) now 0 ↔ t ≤ now := by
  simp [laneAvailable]

theorem laneAvailable_cons_succ {t : ℚ} {rest : List ℚ} {now : ℚ} {i : ℕ} :
    laneAvailable (t :: rest) now (i + 1) ↔ laneAvailable rest now i := by
  simp [laneAvailable]


theorem findTrack_eq_some_iff (status : List ℚ) (now : ℚ) (i : ℕ) :
    findTrack status now = some i ↔
      laneAvailable status now i ∧ ∀ j < i, ¬laneAvailable status now j := by
  induction status generalizing i with
  | nil => simp [findTrack, laneAvailable]
  | cons t rest ih =>
    rw [findTrack]
    by_cases ht : t ≤ now
    · rw [if_pos ht]
      cases i with
      | zero =>
        constructor
        · intro _
          exact ⟨laneAvailable_cons_zero.2 ht,
                 fun j hj => absurd hj (Nat.not_lt_zero j)⟩
        · intro _
          rfl
      | succ i =>
        simp only [Option.some.injEq]
        constructor
        · intro h; exact absurd h (by omega)
        · rintro ⟨_, hall⟩
          exact absurd (laneAvailable_cons_zero.2 ht) (hall 0 (Nat.succ_pos _))
    · rw [if_neg ht]
      cases i with
      | zero =>
        simp only [Option.map_eq_some']
        constructor
        · rintro ⟨a, _, ha⟩; exact absurd ha (by omega)
        · rintro ⟨h0, _⟩
          exact absurd (laneAvailable_cons_zero.1 h0) ht
      | succ i =>
        simp only [Option.map_eq_some']
        constructor
        · rintro ⟨a, hfr, ha⟩
          have hai : a = i := by omega
          rw [hai] at hfr
          obtain ⟨h1, h2⟩ := (ih i).1 hfr
          refine ⟨laneAvailable_cons_succ.2 h1, ?_⟩
          intro j hj
          cases j with
          | zero => rw [laneAvailable_cons_zero]; exact ht
          | succ j => rw [laneAvailable_cons_succ]; exact h2 j (by omega)
        · rintro ⟨h1, h2⟩
          refine ⟨i, (ih i).2 ⟨laneAvailable_cons_succ.1 h1, ?_⟩, rfl⟩
          intro j hj
          have hh := h2 (j + 1) (by omega)
          rw [laneAvailable_cons_succ] at hh
          exact hh

theorem findTrack_eq_none_iff (status : List ℚ) (now : ℚ) :
    findTrack status now = none ↔ ∀ i, ¬laneAvailable status now i := by
  induction status with
  | nil => simp [findTrack, laneAvailable]
  | cons t rest ih =>
    rw [findTrack]
    by_cases ht : t ≤ now
    · rw [if_pos ht]
      constructor
      · intro h; exact absurd h (by simp)
      · intro h; exact absurd (laneAvailable_cons_zero.2 ht) (h 0)
    · rw [if_neg ht, Option.map_eq_none', ih]
      constructor
      · intro h i
        cases i with
        | zero => rw [laneAvailable_cons_zero]; exact ht
        | succ i => rw [laneAvailable_cons_succ]; exact h i
      · intro h i
        have hh := h (i + 1)
        rw [laneAvailable_cons_succ] at hh
        exact hh

theorem laneAvailable_lt_length {status : List ℚ} {now : ℚ} {i : ℕ}
    (h : laneAvailable status now i) : i < status.length := by
  obtain ⟨t, hget, _⟩ := h
  exact (List.getElem?_eq_some_iff.1 hget).1

theorem findFreeIdx_eq_some {pool : List Slot} {i : ℕ}
    (h : findFreeIdx pool = some i) :
    ∃ s, pool[i]? = some s ∧ s.visible = false := by
  induction pool generalizing i with
  | nil => simp [findFreeIdx] at h
  | cons s rest ih =>
    by_cases hs : s.visible = false
    · rw [findFreeIdx, if_pos hs] at h
      injection h with h
      rw [← h]
      exact ⟨s, by simp, hs⟩
    · rw [findFreeIdx, if_neg hs] at h
      rw [Option.map_eq_some'] at h
      obtain ⟨a, ha, hai⟩ := h
      rw [← hai]
      obtain ⟨u, hu, hv⟩ := ih ha
      exact ⟨u, by simpa using hu, hv⟩

theorem findFreeIdx_eq_none {pool : List Slot}
    (h : findFreeIdx pool = none) : ∀ s ∈ pool, s.visible = true := by
  induction pool with
  | nil => simp
  | cons s rest ih =>
    by_cases hs : s.visible = false
    · rw [findFreeIdx, if_pos hs] at h
      exact absurd h (by simp)
    · rw [findFreeIdx, if_neg hs] at h
      rw [Option.map_eq_none'] at h
      intro u hu
      rcases List.mem_cons.1 hu with h1 | h2
      · rw [h1]; simpa using hs
      · exact ih h u h2

theorem getDanmakuElement_idx_lt (pool : List Slot) :
    (getDanmakuElement pool).2 < (getDanmakuElement pool).1.length := by
  rcases hf : findFreeIdx pool with _ | i
  · simp [getDanmakuElement, hf]
  · obtain ⟨s, hget, _⟩ := findFreeIdx_eq_some hf
    have := (List.getElem?_eq_some_iff.1 hget).1
    simpa [getDanmakuElement, hf] using this

/-- Evaluation of `add` on a successful admission, given the selected
lane. -/
theorem addFull_of_findTrack (measure : String → ℚ → ℚ) (cw : ℚ) (e : Engine)
    (now : ℚ) (d : Danmaku) (i : ℕ)
    (hen : e.enabled = true) (hft : findTrack e.trackStatus now = some i) :
    addFull measure cw e now d =
      ({ e with
          pool := (getDanmakuElement e.pool).1.set (getDanmakuElement e.pool).2
            { visible := true
              content := d.content
              color := jsOrStr d.color defaultColor
              fontSize := jsOrNum d.font_size defaultFontSize
              opacity := e.opacity
              top := (i : ℚ) * (trackHeight + trackGap)
              left := cw
              transitionMs :=
                (cw + measure d.content (jsOrNum d.font_size defaultFontSize)) /
                  e.speed * 1000
              transform :=
                some (cw + measure d.content (jsOrNum d.font_size defaultFontSize)) }
          trackStatus := e.trackStatus.set i
            (now + (cw + measure d.content (jsOrNum d.font_size defaultFontSize)) /
              e.speed * 1000) },
        some { lane := i, slotIdx := (getDanmakuElement e.pool).2, start := now
               dur := (cw + measure d.content (jsOrNum d.font_size defaultFontSize)) /
                 e.speed * 1000 }) := by
  rw [addFull, if_neg (by rw [hen]; exact fun h => Bool.noConfusion h), hft]

/-- Evaluation of `add` when the comment is dropped or suppressed. -/
theorem addFull_of_no_track (measure : String → ℚ → ℚ) (cw : ℚ) (e : Engine)
    (now : ℚ) (d : Danmaku)
    (hft : findTrack e.trackStatus now = none) :
    addFull measure cw e now d = (e, none) := by
  by_cases hen : e.enabled = false
  · rw [addFull, if_pos hen]
  · rw [addFull, if_neg hen, hft]

/-- Destructuring of a successful admission. -/
theorem addFull_eq_some_elim {measure : String → ℚ → ℚ} {cw : ℚ} {e e' : Engine}
    {now : ℚ} {d : Danmaku} {r : Res}
    (h : addFull measure cw e now d = (e', some r)) :
    e.enabled = true ∧ findTrack e.trackStatus now = some r.lane := by
  by_cases hen : e.enabled = false
  · rw [addFull, if_pos hen] at h
    exact absurd (congrArg Prod.snd h) (by simp)
  · rcases hft : findTrack e.trackStatus now with _ | i
    · rw [addFull_of_no_track measure cw e now d hft] at h
      exact absurd (congrArg Prod.snd h) (by simp)
    · have hen' : e.enabled = true := by
        cases hb : e.enabled
        · exact absurd hb hen
        · rfl
      rw [addFull_of_findTrack measure cw e now d i hen' hft] at h
      have hr := congrArg Prod.snd h
      simp only [Option.some.injEq] at hr
      have hlane : r.lane = i := by rw [← hr]
      refine ⟨hen', ?_⟩
      rw [hlane]

/-- Evaluation of `initEngine` at the concrete container height 350:
`floor(350 / 35) = 10` lanes. -/
theorem initEngine_350_eq :
    initEngine 350 =
      { trackStatus := List.replicate 10 0
        pool := List.replicate poolSize initSlot
        speed := 100, opacity := 1, enabled := true } := by
  have h : (((350 : ℚ)) / (trackHeight + trackGap)).floor.toNat = 10 := by
    norm_num [trackHeight, trackGap, Rat.floor]
    rfl
  simp [initEngine, calculateTracks, h]

/-- C1: with at least one available lane, `add` admits the comment into
the lowest-index lane `i` satisfying `now ≥ trackStatus[i]`, and any
`add` call seeing the same lane-availability snapshot (same
`trackStatus`, same `now`) selects that same lane. -/
theorem c1_first_fit (measure : String → ℚ → ℚ) (cw : ℚ) (e : Engine)
    (now : ℚ) (d : Danmaku) (hen : e.enabled = true)
    (havail : ∃ i, laneAvailable e.trackStatus now i) :
    ∃ r, (addFull measure cw e now d).2 = some r ∧
      laneAvailable e.trackStatus now r.lane ∧
      (∀ j < r.lane, ¬laneAvailable e.trackStatus now j) ∧
      ∀ (measure2 : String → ℚ → ℚ) (cw2 : ℚ) (e2 : Engine) (d2 : Danmaku),
        e2.trackStatus = e.trackStatus → e2.enabled = true →
        ∃ r2, (addFull measure2 cw2 e2 now d2).2 = some r2 ∧ r2.lane = r.lane := by
  obtain ⟨i0, hav0⟩ := havail
  rcases hft : findTrack e.trackStatus now with _ | i
  · exact absurd ((findTrack_eq_none_iff _ _).1 hft i0) (not_not.2 hav0)
  · obtain ⟨h1, h2⟩ := (findTrack_eq_some_iff _ _ _).1 hft
    rw [addFull_of_findTrack measure cw e now d i hen hft]
    refine ⟨_, rfl, h1, h2, ?_⟩
    intro measure2 cw2 e2 d2 hst hen2
    rw [addFull_of_findTrack measure2 cw2 e2 now d2 i hen2 (by rw [hst]; exact hft)]
    exact ⟨_, rfl, rfl⟩

/-- Witness for C1 at a concrete engine and comment. -/
theorem c1_first_fit_witness :
    ((initEngine 350).enabled = true ∧
      ∃ i, laneAvailable (initEngine 350).trackStatus 0 i) ∧
    ∃ r, (addFull measure0 900 (initEngine 350) 0 dmk0).2 = some r ∧
      laneAvailable (initEngine 350).trackStatus 0 r.lane ∧
      (∀ j < r.lane, ¬laneAvailable (initEngine 350).trackStatus 0 j) ∧
      ∀ (measure2 : String → ℚ → ℚ) (cw2 : ℚ) (e2 : Engine) (d2 : Danmaku),
        e2.trackStatus = (initEngine 350).trackStatus → e2.enabled = true →
        ∃ r2, (addFull measure2 cw2 e2 0 d2).2 = some r2 ∧ r2.lane = r.lane := by
  have h1 : (initEngine 350).enabled = true := rfl
  have h2 : ∃ i, laneAvailable (initEngine 350).trackStatus 0 i :=
    ⟨0, 0, by rw [initEngine_350_eq]; rfl, le_refl 0⟩
  exact ⟨⟨h1, h2⟩, c1_first_fit measure0 900 (initEngine 350) 0 dmk0 h1 h2⟩

/-- C3: when every existing lane has `freeAt > now`, `add` drops the
comment and returns the engine state entirely unchanged (no slot
acquired or created, no lane reservation touched). -/
theorem c3_saturation_drop (measure : String → ℚ → ℚ) (cw : ℚ) (e : Engine)
    (now : ℚ) (d : Danmaku)
    (h : ∀ (i : ℕ) (t : ℚ), e.trackStatus[i]? = some t → now < t) :
    addFull measure cw e now d = (e, none) := by
  apply addFull_of_no_track
  rw [findTrack_eq_none_iff]
  rintro i ⟨t, hget, hle⟩
  exact absurd hle (not_le.2 (h i t hget))

/-- Witness for C3: `eSat` is reserved through `t = 5` and drops a
comment arriving at `t = 0`. -/
theorem c3_saturation_drop_witness :
    (∀ (i : ℕ) (t : ℚ), eSat.trackStatus[i]? = some t → (0 : ℚ) < t) ∧
    addFull measure0 900 eSat 0 dmk0 = (eSat, none) := by
  have h : ∀ (i : ℕ) (t : ℚ), eSat.trackStatus[i]? = some t → (0 : ℚ) < t := by
    intro i t hget
    cases i with
    | zero =>
      simp only [eSat, List.getElem?_cons_zero, Option.some.injEq] at hget
      rw [← hget]
      norm_num
    | succ i => simp [eSat] at hget
  exact ⟨h, c3_saturation_drop measure0 900 eSat 0 dmk0 h⟩


/-- Destructuring of a successful admission: the selected lane, the
admission record's fields, and the resulting engine state. -/
theorem addFull_some_spec {measure : String → ℚ → ℚ} {cw : ℚ} {e e' : Engine}
    {now : ℚ} {d : Danmaku} {r : Res}
    (h : addFull measure cw e now d = (e', some r)) :
    e.enabled = true ∧
    findTrack e.trackStatus now = some r.lane ∧
    r.start = now ∧
    r.dur = (cw + measure d.content (jsOrNum d.font_size defaultFontSize)) /
      e.speed * 1000 ∧
    r.slotIdx = (getDanmakuElement e.pool).2 ∧
    e' = { e with
      pool := (getDanmakuElement e.pool).1.set (getDanmakuElement e.pool).2
        { visible := true
          content := d.content
          color := jsOrStr d.color defaultColor
          fontSize := jsOrNum d.font_size defaultFontSize
          opacity := e.opacity
          top := (r.lane : ℚ) * (trackHeight + trackGap)
          left := cw
          transitionMs :=
            (cw + measure d.content (jsOrNum d.font_size defaultFontSize)) /
              e.speed * 1000
          transform :=
            some (cw + measure d.content (jsOrNum d.font_size defaultFontSize)) }
      trackStatus := e.trackStatus.set r.lane (now + r.dur) } := by
  obtain ⟨hen, hft⟩ := addFull_eq_some_elim h
  rw [addFull_of_findTrack measure cw e now d r.lane hen hft, Prod.mk.injEq] at h
  obtain ⟨he', hr⟩ := h
  rw [Option.some.injEq] at hr
  refine ⟨hen, hft, ?_, ?_, ?_, ?_⟩
  · rw [← hr]
  · rw [← hr]
  · rw [← hr]
  · rw [← he', ← hr]

/-- The slot bound by a successful admission, read back from the new
pool. -/
theorem addFull_pool_get {measure : String → ℚ → ℚ} {cw : ℚ} {e e' : Engine}
    {now : ℚ} {d : Danmaku} {r : Res}
    (h : addFull measure cw e now d = (e', some r)) :
    e'.pool[r.slotIdx]? = some
      { visible := true
        content := d.content
        color := jsOrStr d.color defaultColor
        fontSize := jsOrNum d.font_size defaultFontSize
        opacity := e.opacity
        top := (r.lane : ℚ) * (trackHeight + trackGap)
        left := cw
        transitionMs :=
          (cw + measure d.content (jsOrNum d.font_size defaultFontSize)) /
            e.speed * 1000
        transform :=
          some (cw + measure d.content (jsOrNum d.font_size defaultFontSize)) } := by
  obtain ⟨hen, hft, hstart, hdur, hidx, he'⟩ := addFull_some_spec h
  rw [he', hidx]
  exact List.getElem?_set_self (getDanmakuElement_idx_lt e.pool)

/-- C4: an admitted comment's computed duration is exactly
`(W + w) / s * 1000` for surface width `W`, measured text width `w` and
current speed `s`; the lane's `freeAt` becomes the admission time plus
exactly that duration, and the slot's animation runs for exactly that
duration. -/
theorem c4_duration_formula (measure : String → ℚ → ℚ) (cw : ℚ) (e e' : Engine)
    (now : ℚ) (d : Danmaku) (r : Res)
    (h : addFull measure cw e now d = (e', some r)) :
    r.dur = (cw + measure d.content (jsOrNum d.font_size defaultFontSize)) /
      e.speed * 1000 ∧
    e'.trackStatus[r.lane]? = some (now + r.dur) ∧
    ∃ s, e'.pool[r.slotIdx]? = some s ∧ s.transitionMs = r.dur := by
  obtain ⟨hen, hft, hstart, hdur, hidx, he'⟩ := addFull_some_spec h
  have hlane : r.lane < e.trackStatus.length :=
    laneAvailable_lt_length ((findTrack_eq_some_iff _ _ _).1 hft).1
  have hpool := addFull_pool_get h
  refine ⟨hdur, ?_, ⟨_, hpool, ?_⟩⟩
  · rw [he']
    exact List.getElem?_set_self hlane
  · rw [hdur]

/-- An unreserved one-lane engine with an empty pool. -/
def eAvail : Engine :=
  { trackStatus := [0], pool := [], speed := 100, opacity := 1, enabled := true }

/-- Witness for C4 at a concrete admission. -/
theorem c4_duration_formula_witness :
    ∃ (e' : Engine) (r : Res),
      addFull measure0 900 eAvail 0 dmk0 = (e', some r) ∧
      (r.dur = (900 + measure0 dmk0.content (jsOrNum dmk0.font_size defaultFontSize)) /
          eAvail.speed * 1000 ∧
        e'.trackStatus[r.lane]? = some (0 + r.dur) ∧
        ∃ s, e'.pool[r.slotIdx]? = some s ∧ s.transitionMs = r.dur) := by
  have hft : findTrack eAvail.trackStatus 0 = some 0 := by
    simp [eAvail, findTrack]
  have h := addFull_of_findTrack measure0 900 eAvail 0 dmk0 0 rfl hft
  exact ⟨_, _, h, c4_duration_formula measure0 900 eAvail _ 0 dmk0 _ h⟩

/-- C10: an admitted comment with a missing or falsy `color` is rendered
in the default color `#FFFFFF`; a missing or falsy `font_size` is
rendered at the default 24 pixels; supplied truthy values are used
exactly. -/
theorem c10_default_styles (measure : String → ℚ → ℚ) (cw : ℚ) (e e' : Engine)
    (now : ℚ) (d : Danmaku) (r : Res)
    (h : addFull measure cw e now d = (e', some r)) :
    ∃ s, e'.pool[r.slotIdx]? = some s ∧
      ((d.color = none ∨ d.color = some "") → s.color = "#FFFFFF") ∧
      (∀ c, d.color = some c → ¬c = "" → s.color = c) ∧
      ((d.font_size = none ∨ d.font_size = some 0) → s.fontSize = 24) ∧
      ∀ x, d.font_size = some x → ¬x = 0 → s.fontSize = x := by
  have hpool := addFull_pool_get h
  refine ⟨_, hpool, ?_, ?_, ?_, ?_⟩
  · rintro (hc | hc) <;> simp [jsOrStr, hc, defaultColor]
  · intro c hc hne
    simp [jsOrStr, hc, hne]
  · rintro (hf | hf) <;> simp [jsOrNum, hf, defaultFontSize]
  · intro x hf hne
    simp [jsOrNum, hf, hne]

/-- A comment record supplying a truthy color and font size. -/
def dmkStyled : Danmaku :=
  { content := "hi", color := some "#FF0000", font_size := some 18
    username := none }

/-- Witness for C10 at a concrete admission with supplied styles. -/
theorem c10_default_styles_witness :
    ∃ (e' : Engine) (r : Res),
      addFull measure0 900 eAvail 0 dmkStyled = (e', some r) ∧
      ∃ s, e'.pool[r.slotIdx]? = some s ∧
        ((dmkStyled.color = none ∨ dmkStyled.color = some "") →
          s.color = "#FFFFFF") ∧
        (∀ c, dmkStyled.color = some c → ¬c = "" → s.color = c) ∧
        ((dmkStyled.font_size = none ∨ dmkStyled.font_size = some 0) →
          s.fontSize = 24) ∧
        ∀ x, dmkStyled.font_size = some x → ¬x = 0 → s.fontSize = x := by
  have hft : findTrack eAvail.trackStatus 0 = some 0 := by
    simp [eAvail, findTrack]
  have h := addFull_of_findTrack measure0 900 eAvail 0 dmkStyled 0 rfl hft
  exact ⟨_, _, h, c10_default_styles measure0 900 eAvail _ 0 dmkStyled _ h⟩

/-- C6: `setSpeed(m)` sets the speed to `100 * m` and changes nothing
else — lane reservations, pool slots (including the transition duration
of every already-scheduled comment), opacity and the enabled flag are
untouched — and a comment admitted afterwards has its duration computed
from the new speed `100 * m`. -/
theorem c6_set_speed (e : Engine) (m : ℚ) (measure : String → ℚ → ℚ)
    (cw : ℚ) (d : Danmaku) :
    setSpeed e m = { e with speed := 100 * m } ∧
    (setSpeed e m).trackStatus = e.trackStatus ∧
    (setSpeed e m).pool = e.pool ∧
    (setSpeed e m).opacity = e.opacity ∧
    (setSpeed e m).enabled = e.enabled ∧
    (setSpeed e m).speed = 100 * m ∧
    admissionDuration measure cw (setSpeed e m) d =
      (cw + measure d.content (jsOrNum d.font_size defaultFontSize)) /
        (100 * m) * 1000 :=
  ⟨rfl, rfl, rfl, rfl, rfl, rfl, rfl⟩

/-- Idempotence of the slot reset. -/
theorem recycleSlot_idem (u : Slot) :
    recycleSlot (recycleSlot u) = recycleSlot u := rfl

/-- C9: release of an already-free slot (hidden, empty content, no
transform) leaves it exactly unchanged; release always yields a hidden,
empty, transform-free slot; and release composed with itself equals a
single release, both on a slot and through the engine-level recycle. -/
theorem c9_release_idempotent (s : Slot)
    (hv : s.visible = false) (hc : s.content = "") (ht : s.transform = none) :
    recycleSlot s = s ∧
    (recycleSlot s).visible = false ∧
    (recycleSlot s).content = "" ∧
    (recycleSlot s).transform = none ∧
    (∀ u : Slot, recycleSlot (recycleSlot u) = recycleSlot u) ∧
    ∀ (e : Engine) (i : ℕ),
      recycleEngine (recycleEngine e i) i = recycleEngine e i := by
  refine ⟨?_, rfl, rfl, rfl, recycleSlot_idem, ?_⟩
  · cases s
    simp_all [recycleSlot]
  · intro e i
    simp only [recycleEngine]
    by_cases hi : i < e.pool.length
    · have hget :
          (e.pool.set i (recycleSlot (e.pool.getD i initSlot))).getD i initSlot =
            recycleSlot (e.pool.getD i initSlot) := by
        rw [List.getD_eq_getElem?_getD, List.getElem?_set_self hi,
          Option.getD_some]
      rw [hget, List.set_set, recycleSlot_idem]
    · have hge : e.pool.length ≤ i := le_of_not_lt hi
      simp [List.set_eq_of_length_le hge]

/-- Witness for C9 at the freshly created slot. -/
theorem c9_release_idempotent_witness :
    (initSlot.visible = false ∧ initSlot.content = "" ∧
      initSlot.transform = none) ∧
    (recycleSlot initSlot = initSlot ∧
      (recycleSlot initSlot).visible = false ∧
      (recycleSlot initSlot).content = "" ∧
      (recycleSlot initSlot).transform = none ∧
      (∀ u : Slot, recycleSlot (recycleSlot u) = recycleSlot u) ∧
      ∀ (e : Engine) (i : ℕ),
        recycleEngine (recycleEngine e i) i = recycleEngine e i) :=
  ⟨⟨rfl, rfl, rfl⟩, c9_release_idempotent initSlot rfl rfl rfl⟩


/-- A Bool that is not false is true. -/
theorem enabled_true_of_ne_false {e : Engine} (h : ¬e.enabled = false) :
    e.enabled = true := by
  cases hb : e.enabled
  · exact absurd hb h
  · rfl

/-- `add` never changes the configured speed. -/
theorem addFull_fst_speed (measure : String → ℚ → ℚ) (cw : ℚ) (e : Engine)
    (now : ℚ) (d : Danmaku) :
    (addFull measure cw e now d).1.speed = e.speed := by
  by_cases hen : e.enabled = false
  · rw [addFull, if_pos hen]
  · rcases hft : findTrack e.trackStatus now with _ | i
    · rw [addFull_of_no_track measure cw e now d hft]
    · rw [addFull_of_findTrack measure cw e now d i (enabled_true_of_ne_false hen) hft]

/-- Positivity of the speed is preserved by every event whose `setSpeed`
multipliers lie in the UI range. -/
theorem step_speed_pos (measure : String → ℚ → ℚ) (e : Engine) (ev : Ev)
    (hok : SpeedOkEv ev) (hpos : 0 < e.speed) :
    0 < (step measure e ev).speed := by
  cases ev with
  | add now d cw =>
    show 0 < (addFull measure cw e now d).1.speed
    rw [addFull_fst_speed]
    exact hpos
  | recycle i => exact hpos
  | setEnabled b => cases b <;> exact hpos
  | setSpeed m =>
    obtain ⟨h1, h2⟩ := hok m rfl
    show 0 < 100 * m
    linarith
  | setOpacity v => exact hpos
  | clearAll => exact hpos
  | resize h => exact hpos

/-- Positivity of the speed is preserved by whole traces. -/
theorem run_speed_pos (measure : String → ℚ → ℚ) (e : Engine) (evs : List Ev)
    (hev : ∀ ev ∈ evs, SpeedOkEv ev) (hpos : 0 < e.speed) :
    0 < (run measure e evs).speed := by
  induction evs generalizing e with
  | nil => exact hpos
  | cons ev rest ih =>
    rw [run, List.foldl_cons]
    exact ih (step measure e ev)
      (fun ev2 h2 => hev ev2 (List.mem_cons_of_mem _ h2))
      (step_speed_pos measure e ev (hev ev (List.mem_cons_self _ _)) hpos)

/-- C7: after any event trace whose `setSpeed` multipliers lie in the UI
range `[0.5, 2.0]`, the engine's speed is strictly positive, so the
division in the duration computation is never a division by zero: for
every total distance (including one with a zero measured text width) the
JS division yields a finite value. -/
theorem c7_speed_structural (measure : String → ℚ → ℚ) (h0 : ℚ)
    (evs : List Ev) (hev : ∀ ev ∈ evs, SpeedOkEv ev) :
    0 < (run measure (initEngine h0) evs).speed ∧
    ∀ cw tw : ℚ, jsDiv (cw + tw) (run measure (initEngine h0) evs).speed =
      some ((cw + tw) / (run measure (initEngine h0) evs).speed) := by
  have h100 : (initEngine h0).speed = 100 := rfl
  have hpos : 0 < (run measure (initEngine h0) evs).speed := by
    refine run_speed_pos measure (initEngine h0) evs hev ?_
    rw [h100]
    norm_num
  refine ⟨hpos, fun cw tw => ?_⟩
  rw [jsDiv, if_neg (ne_of_gt hpos)]

/-- Witness for C7: a trace consisting of `setSpeed(2.0)`. -/
theorem c7_speed_structural_witness :
    (∀ ev ∈ [Ev.setSpeed 2], SpeedOkEv ev) ∧
    (0 < (run measure0 (initEngine 350) [Ev.setSpeed 2]).speed ∧
      ∀ cw tw : ℚ,
        jsDiv (cw + tw) (run measure0 (initEngine 350) [Ev.setSpeed 2]).speed =
          some ((cw + tw) /
            (run measure0 (initEngine 350) [Ev.setSpeed 2]).speed)) := by
  have hev : ∀ ev ∈ [Ev.setSpeed 2], SpeedOkEv ev := by
    intro ev hm
    obtain rfl := List.mem_singleton.1 hm
    intro m hm2
    injection hm2 with h
    rw [← h]
    norm_num
  exact ⟨hev, c7_speed_structural measure0 350 _ hev⟩

/-- Evaluation of `setEnabled(false)`. -/
theorem setEnabled_false_eq (e : Engine) :
    setEnabled e false =
      { e with enabled := false
               pool := e.pool.map hideSlot
               trackStatus := List.replicate e.trackStatus.length 0 } := rfl

/-- Disabling hides every pool element. -/
theorem setEnabled_false_allHidden (e : Engine) :
    allHidden (setEnabled e false) := by
  intro s hs
  rw [setEnabled_false_eq] at hs
  obtain ⟨u, hu, rfl⟩ := List.mem_map.1 hs
  rfl

/-- `add` on a disabled engine does nothing. -/
theorem addFull_disabled {measure : String → ℚ → ℚ} {cw : ℚ} {e : Engine}
    {now : ℚ} {d : Danmaku} (h : e.enabled = false) :
    addFull measure cw e now d = (e, none) := by
  rw [addFull, if_pos h]

/-- Once disabled with all slots hidden, any trace of `add` calls and
recycle callbacks keeps the engine disabled with all slots hidden. -/
theorem run_disabled_allHidden (measure : String → ℚ → ℚ) (e : Engine)
    (evs : List Ev) (hev : ∀ ev ∈ evs, AddRecycleEv ev)
    (hdis : e.enabled = false) (hall : allHidden e) :
    (run measure e evs).enabled = false ∧ allHidden (run measure e evs) := by
  induction evs generalizing e with
  | nil => exact ⟨hdis, hall⟩
  | cons ev rest ih =>
    rw [run, List.foldl_cons]
    refine ih (step measure e ev)
      (fun ev2 h2 => hev ev2 (List.mem_cons_of_mem _ h2)) ?_ ?_
    · rcases hev ev (List.mem_cons_self _ _) with ⟨i, rfl⟩ | ⟨now, d, cw, rfl⟩
      · exact hdis
      · show (addFull measure cw e now d).1.enabled = false
        rw [addFull_disabled hdis]
        exact hdis
    · rcases hev ev (List.mem_cons_self _ _) with ⟨i, rfl⟩ | ⟨now, d, cw, rfl⟩
      · intro s hs
        rcases List.mem_or_eq_of_mem_set hs with h1 | h1
        · exact hall s h1
        · rw [h1]
          rfl
      · show allHidden (addFull measure cw e now d).1
        rw [addFull_disabled hdis]
        exact hall

/-- C5: `setEnabled(false)` immediately hides every slot and resets every
lane's `freeAt` to the zero sentinel; while disabled, `add` is a
no-op; and any trace of later recycle callbacks and `add` calls never
makes a slot visible again. -/
theorem c5_disable_hides (measure : String → ℚ → ℚ) (e : Engine)
    (evs : List Ev) (hev : ∀ ev ∈ evs, AddRecycleEv ev) :
    allHidden (setEnabled e false) ∧
    (setEnabled e false).trackStatus = List.replicate e.trackStatus.length 0 ∧
    (setEnabled e false).enabled = false ∧
    (∀ (now cw : ℚ) (d : Danmaku),
      addFull measure cw (setEnabled e false) now d = (setEnabled e false, none)) ∧
    allHidden (run measure (setEnabled e false) evs) := by
  refine ⟨setEnabled_false_allHidden e, rfl, rfl, ?_, ?_⟩
  · intro now cw d
    exact addFull_disabled rfl
  · exact (run_disabled_allHidden measure (setEnabled e false) evs hev rfl
      (setEnabled_false_allHidden e)).2

/-- Witness for C5: disabling `eAvail`, then one recycle callback and one
late `add`. -/
theorem c5_disable_hides_witness :
    (∀ ev ∈ [Ev.recycle 0, Ev.add 7 dmk0 900], AddRecycleEv ev) ∧
    (allHidden (setEnabled eAvail false) ∧
      (setEnabled eAvail false).trackStatus =
        List.replicate eAvail.trackStatus.length 0 ∧
      (setEnabled eAvail false).enabled = false ∧
      (∀ (now cw : ℚ) (d : Danmaku),
        addFull measure0 cw (setEnabled eAvail false) now d =
          (setEnabled eAvail false, none)) ∧
      allHidden (run measure0 (setEnabled eAvail false)
        [Ev.recycle 0, Ev.add 7 dmk0 900])) := by
  have hev : ∀ ev ∈ [Ev.recycle 0, Ev.add 7 dmk0 900], AddRecycleEv ev := by
    intro ev hm
    rcases List.mem_cons.1 hm with rfl | hm2
    · exact Or.inl ⟨0, rfl⟩
    · obtain rfl := List.mem_singleton.1 hm2
      exact Or.inr ⟨7, dmk0, 900, rfl⟩
  exact ⟨hev, c5_disable_hides measure0 eAvail _ hev⟩


/-- Filtering a lane's admissions distributes over log concatenation. -/
theorem laneResList_append (lane : ℕ) (l1 l2 : List Res) :
    laneResList lane (l1 ++ l2) = laneResList lane l1 ++ laneResList lane l2 := by
  simp [laneResList]

/-- A one-admission log restricted to its own lane. -/
theorem laneResList_singleton_self (r : Res) : laneResList r.lane [r] = [r] := by
  simp [laneResList]

/-- A one-admission log restricted to a different lane. -/
theorem laneResList_singleton_ne {lane : ℕ} (r : Res) (h : ¬r.lane = lane) :
    laneResList lane [r] = [] := by
  simp [laneResList, h]

/-- A dropped or suppressed `add` leaves the engine unchanged. -/
theorem addFull_eq_none_elim {measure : String → ℚ → ℚ} {cw : ℚ} {e e' : Engine}
    {now : ℚ} {d : Danmaku}
    (h : addFull measure cw e now d = (e', none)) : e' = e := by
  by_cases hen : e.enabled = false
  · rw [addFull_disabled hen] at h
    exact (congrArg Prod.fst h).symm
  · rcases hft : findTrack e.trackStatus now with _ | i
    · rw [addFull_of_no_track measure cw e now d hft] at h
      exact (congrArg Prod.fst h).symm
    · rw [addFull_of_findTrack measure cw e now d i
        (enabled_true_of_ne_false hen) hft] at h
      exact absurd (congrArg Prod.snd h) (by simp)

/-- One allowed event preserves the per-lane separation of the admission
log and its synchronisation with the lane table. -/
theorem stepLog_inv (measure : String → ℚ → ℚ) (e : Engine) (log : List Res)
    (ev : Ev) (hok : C2Allowed ev) (hchain : ResChain log)
    (hsync : StatusSync e log) :
    ResChain (stepLog measure (e, log) ev).2 ∧
    StatusSync (stepLog measure (e, log) ev).1 (stepLog measure (e, log) ev).2 := by
  cases ev with
  | add now d cw =>
    show ResChain (log ++ (addFull measure cw e now d).2.toList) ∧
      StatusSync (addFull measure cw e now d).1
        (log ++ (addFull measure cw e now d).2.toList)
    rcases her : addFull measure cw e now d with ⟨e2, r?⟩
    cases r? with
    | none =>
      obtain rfl : e2 = e := addFull_eq_none_elim her
      show ResChain (log ++ []) ∧ StatusSync e2 (log ++ [])
      rw [List.append_nil]
      exact ⟨hchain, hsync⟩
    | some r =>
      obtain ⟨hen, hft, hstart, hdur, hidx, he'⟩ := addFull_some_spec her
      have havail := ((findTrack_eq_some_iff _ _ _).1 hft).1
      have hlane : r.lane < e.trackStatus.length := laneAvailable_lt_length havail
      obtain ⟨t0, hget0, hle0⟩ := havail
      show ResChain (log ++ [r]) ∧ StatusSync e2 (log ++ [r])
      constructor
      · intro lane
        rw [laneResList_append]
        by_cases hl : r.lane = lane
        · subst hl
          rw [laneResList_singleton_self, List.chain'_append]
          refine ⟨hchain _, List.chain'_singleton r, ?_⟩
          intro x hx y hy
          simp only [List.head?_cons, Option.mem_def, Option.some.injEq] at hy
          subst hy
          have hx2 := hsync r.lane x (Option.mem_def.1 hx)
          rw [hx2] at hget0
          injection hget0 with hq
          rw [hstart, hq]
          exact hle0
        · rw [laneResList_singleton_ne r hl, List.append_nil]
          exact hchain lane
      · intro lane x hxlast
        rw [he']
        by_cases hl : r.lane = lane
        · subst hl
          rw [laneResList_append, laneResList_singleton_self,
            List.getLast?_concat] at hxlast
          injection hxlast with hx
          show (e.trackStatus.set r.lane (now + r.dur))[r.lane]? =
            some (x.start + x.dur)
          rw [← hx, hstart]
          exact List.getElem?_set_self hlane
        · rw [laneResList_append, laneResList_singleton_ne r hl,
            List.append_nil] at hxlast
          show (e.trackStatus.set r.lane (now + r.dur))[lane]? =
            some (x.start + x.dur)
          rw [List.getElem?_set_ne hl]
          exact hsync lane x hxlast
  | recycle i => exact ⟨hchain, hsync⟩
  | setEnabled b =>
    have hb : b = true := hok
    subst hb
    exact ⟨hchain, hsync⟩
  | setSpeed m => exact ⟨hchain, hsync⟩
  | setOpacity v => exact ⟨hchain, hsync⟩
  | clearAll => exact hok.elim
  | resize h => exact hok.elim

/-- A whole allowed trace preserves the log invariants. -/
theorem runLog_inv (measure : String → ℚ → ℚ) (s : Engine × List Res)
    (evs : List Ev) (hev : ∀ ev ∈ evs, C2Allowed ev)
    (hchain : ResChain s.2) (hsync : StatusSync s.1 s.2) :
    ResChain (runLog measure s evs).2 ∧
    StatusSync (runLog measure s evs).1 (runLog measure s evs).2 := by
  induction evs generalizing s with
  | nil => exact ⟨hchain, hsync⟩
  | cons ev rest ih =>
    obtain ⟨hc, hs⟩ := stepLog_inv measure s.1 s.2 ev
      (hev ev (List.mem_cons_self _ _)) hchain hsync
    exact ih (stepLog measure s ev)
      (fun ev2 h2 => hev ev2 (List.mem_cons_of_mem _ h2)) hc hs

/-- Separated reservation intervals share no instant. -/
theorem sep_noOverlap {r1 r2 : Res} (h : r1.start + r1.dur ≤ r2.start) :
    noOverlap r1 r2 := by
  intro t hcon
  obtain ⟨h1, h2, h3, h4⟩ := hcon
  exact absurd (lt_of_lt_of_le h2 (le_trans h h3)) (lt_irrefl t)

/-- C2: over any trace of `add` calls (with recycle completions, speed,
opacity and re-enable changes allowed, but no resize, `clear` or
`setEnabled(false)`), the reservation intervals of successive admissions
to any one lane never overlap; moreover a lane is only granted when the
admission time is at or past its `freeAt`, and the admission sets
`freeAt` to the admission time plus the comment's duration. -/
theorem c2_lane_mutual_exclusion (measure : String → ℚ → ℚ) (e : Engine)
    (evs : List Ev) (hev : ∀ ev ∈ evs, C2Allowed ev) :
    (∀ lane, List.Chain' noOverlap
      (laneResList lane (runLog measure (e, []) evs).2)) ∧
    ∀ (e1 e2 : Engine) (now cw : ℚ) (d : Danmaku) (r : Res),
      addFull measure cw e1 now d = (e2, some r) →
      (∃ t, e1.trackStatus[r.lane]? = some t ∧ t ≤ now) ∧
      e2.trackStatus[r.lane]? = some (now + r.dur) := by
  constructor
  · have hbase1 : ResChain ([] : List Res) := fun lane => List.chain'_nil
    have hbase2 : StatusSync e [] := by
      intro lane r h
      simp [laneResList] at h
    intro lane
    exact List.Chain'.imp (fun a b h => sep_noOverlap h)
      ((runLog_inv measure (e, []) evs hev hbase1 hbase2).1 lane)
  · intro e1 e2 now cw d r h
    obtain ⟨hen, hft, hstart, hdur, hidx, he'⟩ := addFull_some_spec h
    have havail := ((findTrack_eq_some_iff _ _ _).1 hft).1
    obtain ⟨t, hget, hle⟩ := havail
    refine ⟨⟨t, hget, hle⟩, ?_⟩
    rw [he']
    exact List.getElem?_set_self (laneAvailable_lt_length ⟨t, hget, hle⟩)

/-- Witness for C2: one admission on the unreserved one-lane engine. -/
theorem c2_lane_mutual_exclusion_witness :
    (∀ ev ∈ [Ev.add 0 dmk0 900], C2Allowed ev) ∧
    ((∀ lane, List.Chain' noOverlap
        (laneResList lane (runLog measure0 (eAvail, []) [Ev.add 0 dmk0 900]).2)) ∧
      ∀ (e1 e2 : Engine) (now cw : ℚ) (d : Danmaku) (r : Res),
        addFull measure0 cw e1 now d = (e2, some r) →
        (∃ t, e1.trackStatus[r.lane]? = some t ∧ t ≤ now) ∧
        e2.trackStatus[r.lane]? = some (now + r.dur)) := by
  have hev : ∀ ev ∈ [Ev.add 0 dmk0 900], C2Allowed ev := by
    intro ev hm
    obtain rfl := List.mem_singleton.1 hm
    trivial
  exact ⟨hev, c2_lane_mutual_exclusion measure0 eAvail _ hev⟩


/-- The in-flight count never exceeds the pool size. -/
theorem countVisible_le_length (pool : List Slot) :
    countVisible pool ≤ pool.length :=
  List.length_filter_le _ _

theorem countVisible_cons_true {s : Slot} (h : s.visible = true)
    (rest : List Slot) :
    countVisible (s :: rest) = countVisible rest + 1 := by
  simp [countVisible, List.filter_cons, h]

theorem countVisible_cons_false {s : Slot} (h : s.visible = false)
    (rest : List Slot) :
    countVisible (s :: rest) = countVisible rest := by
  simp [countVisible, List.filter_cons, h]

/-- Showing a hidden slot raises the in-flight count by exactly one. -/
theorem countVisible_set_true {pool : List Slot} {i : ℕ} {s a : Slot}
    (hi : pool[i]? = some s) (hs : s.visible = false) (ha : a.visible = true) :
    countVisible (pool.set i a) = countVisible pool + 1 := by
  induction pool generalizing i with
  | nil => simp at hi
  | cons u rest ih =>
    cases i with
    | zero =>
      simp only [List.getElem?_cons_zero, Option.some.injEq] at hi
      subst hi
      rw [List.set_cons_zero, countVisible_cons_true ha rest,
        countVisible_cons_false hs rest]
    | succ i =>
      simp only [List.getElem?_cons_succ] at hi
      rw [List.set_cons_succ]
      by_cases hu : u.visible = true
      · rw [countVisible_cons_true hu (rest.set i a),
          countVisible_cons_true hu rest, ih hi]
      · have hu2 : u.visible = false := by
          cases hb : u.visible
          · rfl
          · exact absurd hb hu
        rw [countVisible_cons_false hu2 (rest.set i a),
          countVisible_cons_false hu2 rest, ih hi]

/-- Writing a hidden slot never raises the in-flight count. -/
theorem countVisible_set_hidden {pool : List Slot} {a : Slot} (i : ℕ)
    (ha : a.visible = false) :
    countVisible (pool.set i a) ≤ countVisible pool := by
  induction pool generalizing i with
  | nil => exact Nat.le_refl _
  | cons u rest ih =>
    cases i with
    | zero =>
      rw [List.set_cons_zero, countVisible_cons_false ha rest]
      by_cases hu : u.visible = true
      · rw [countVisible_cons_true hu rest]
        omega
      · have hu2 : u.visible = false := by
          cases hb : u.visible
          · rfl
          · exact absurd hb hu
        rw [countVisible_cons_false hu2 rest]
    | succ i =>
      rw [List.set_cons_succ]
      by_cases hu : u.visible = true
      · rw [countVisible_cons_true hu (rest.set i a),
          countVisible_cons_true hu rest]
        exact Nat.add_le_add_right (ih i) 1
      · have hu2 : u.visible = false := by
          cases hb : u.visible
          · rfl
          · exact absurd hb hu
        rw [countVisible_cons_false hu2 (rest.set i a),
          countVisible_cons_false hu2 rest]
        exact ih i

/-- Appending a visible slot raises the in-flight count by one. -/
theorem countVisible_append_true (pool : List Slot) {a : Slot}
    (ha : a.visible = true) :
    countVisible (pool ++ [a]) = countVisible pool + 1 := by
  simp [countVisible, List.filter_append, List.filter_cons, ha]

/-- When every slot is visible, the in-flight count is the pool size. -/
theorem countVisible_eq_length {pool : List Slot}
    (h : ∀ s ∈ pool, s.visible = true) :
    countVisible pool = pool.length := by
  unfold countVisible
  rw [List.filter_eq_self.2 h]

/-- Overwriting the just-appended element. -/
theorem set_append_length (l : List Slot) (a b : Slot) :
    (l ++ [a]).set l.length b = l ++ [b] := by
  induction l with
  | nil => rfl
  | cons x xs ih =>
    show x :: ((xs ++ [a]).set xs.length b) = x :: (xs ++ [b])
    rw [ih]

/-- Acquiring a pool element for a visible slot keeps the pool length at
the maximum of the initial pool size and the new peak. -/
theorem pool_acquire_len (pool : List Slot) (a : Slot) (ha : a.visible = true)
    (pk : ℕ) (h1 : countVisible pool ≤ pk)
    (h2 : pool.length = max poolSize pk) :
    ((getDanmakuElement pool).1.set (getDanmakuElement pool).2 a).length =
      max poolSize (max pk
        (countVisible ((getDanmakuElement pool).1.set (getDanmakuElement pool).2 a))) := by
  rcases hfree : findFreeIdx pool with _ | i2
  · have hall := findFreeIdx_eq_none hfree
    have hcnt := countVisible_eq_length hall
    have hget : getDanmakuElement pool = (pool ++ [initSlot], pool.length) := by
      rw [getDanmakuElement, hfree]
    rw [hget]
    show ((pool ++ [initSlot]).set pool.length a).length =
      max poolSize (max pk (countVisible ((pool ++ [initSlot]).set pool.length a)))
    rw [set_append_length, countVisible_append_true pool ha, List.length_append]
    show pool.length + 1 = max poolSize (max pk (countVisible pool + 1))
    omega
  · obtain ⟨s0, hs0get, hs0⟩ := findFreeIdx_eq_some hfree
    have hget : getDanmakuElement pool = (pool, i2) := by
      rw [getDanmakuElement, hfree]
    rw [hget]
    show (pool.set i2 a).length = max poolSize (max pk (countVisible (pool.set i2 a)))
    have hc2 := countVisible_set_true hs0get hs0 ha
    have hle2 : countVisible (pool.set i2 a) ≤ (pool.set i2 a).length :=
      countVisible_le_length _
    rw [List.length_set] at hle2 ⊢
    rw [hc2] at hle2 ⊢
    omega

/-- One `add` or recycle event preserves the pool-size accounting: the
pool length stays the maximum of the initial pool size and the running
peak of simultaneously visible slots. -/
theorem stepPeak_inv (measure : String → ℚ → ℚ) (e : Engine) (pk : ℕ) (ev : Ev)
    (hok : AddRecycleEv ev)
    (h1 : countVisible e.pool ≤ pk)
    (h2 : e.pool.length = max poolSize pk) :
    (step measure e ev).pool.length =
      max poolSize (max pk (countVisible (step measure e ev).pool)) := by
  rcases hok with ⟨i, rfl⟩ | ⟨now, d, cw, rfl⟩
  · show (recycleEngine e i).pool.length =
      max poolSize (max pk (countVisible (recycleEngine e i).pool))
    have hlen : (recycleEngine e i).pool.length = e.pool.length :=
      List.length_set e.pool i _
    have hcnt : countVisible (recycleEngine e i).pool ≤ countVisible e.pool :=
      countVisible_set_hidden i rfl
    rw [hlen, h2]
    omega
  · show (addFull measure cw e now d).1.pool.length =
      max poolSize (max pk (countVisible (addFull measure cw e now d).1.pool))
    by_cases hen : e.enabled = false
    · rw [addFull_disabled hen]
      show e.pool.length = max poolSize (max pk (countVisible e.pool))
      rw [h2]
      omega
    · rcases hft : findTrack e.trackStatus now with _ | j
      · rw [addFull_of_no_track measure cw e now d hft]
        show e.pool.length = max poolSize (max pk (countVisible e.pool))
        rw [h2]
        omega
      · rw [addFull_of_findTrack measure cw e now d j
          (enabled_true_of_ne_false hen) hft]
        exact pool_acquire_len e.pool _ rfl pk h1 h2

/-- A whole trace of `add` calls and recycle callbacks preserves the
pool-size accounting. -/
theorem runPeak_inv (measure : String → ℚ → ℚ) (s : Engine × ℕ) (evs : List Ev)
    (hev : ∀ ev ∈ evs, AddRecycleEv ev)
    (h1 : countVisible s.1.pool ≤ s.2)
    (h2 : s.1.pool.length = max poolSize s.2) :
    (runPeak measure s evs).1.pool.length =
      max poolSize (runPeak measure s evs).2 := by
  induction evs generalizing s with
  | nil => exact h2
  | cons ev rest ih =>
    have hstep := stepPeak_inv measure s.1 s.2 ev
      (hev ev (List.mem_cons_self _ _)) h1 h2
    exact ih (step measure s.1 ev, max s.2 (countVisible (step measure s.1 ev).pool))
      (fun ev2 hm => hev ev2 (List.mem_cons_of_mem _ hm))
      (Nat.le_max_right _ _) hstep


/-- The pre-created pool is entirely hidden. -/
theorem countVisible_replicate (n : ℕ) :
    countVisible (List.replicate n initSlot) = 0 := by
  induction n with
  | zero => rfl
  | succ n ih =>
    rw [List.replicate_succ,
      countVisible_cons_false rfl (List.replicate n initSlot), ih]

/-- C8 (amended): over any trace of `add` calls and recycle completions
from a fresh engine, the number of distinct slots ever created (the pool
length, since the pool never shrinks) equals the maximum of the initial
pool size (50) and the historical peak of simultaneously in-flight
comments. -/
theorem c8_pool_reuse (measure : String → ℚ → ℚ) (h0 : ℚ) (evs : List Ev)
    (hev : ∀ ev ∈ evs, AddRecycleEv ev) :
    (runPeak measure (initEngine h0, 0) evs).1.pool.length =
      max poolSize (runPeak measure (initEngine h0, 0) evs).2 := by
  refine runPeak_inv measure (initEngine h0, 0) evs hev ?_ ?_
  · show countVisible (List.replicate poolSize initSlot) ≤ 0
    rw [countVisible_replicate]
  · show (List.replicate poolSize initSlot).length = max poolSize 0
    rw [List.length_replicate]
    omega

/-- Witness for the amended C8: one admission from the fresh engine. -/
theorem c8_pool_reuse_witness :
    (∀ ev ∈ [Ev.add 0 dmk0 900], AddRecycleEv ev) ∧
    (runPeak measure0 (initEngine 350, 0) [Ev.add 0 dmk0 900]).1.pool.length =
      max poolSize (runPeak measure0 (initEngine 350, 0) [Ev.add 0 dmk0 900]).2 := by
  have hev : ∀ ev ∈ [Ev.add 0 dmk0 900], AddRecycleEv ev := by
    intro ev hm
    obtain rfl := List.mem_singleton.1 hm
    exact Or.inr ⟨0, dmk0, 900, rfl⟩
  exact ⟨hev, c8_pool_reuse measure0 350 _ hev⟩

/-- Counterexample to C8 as stated: after a single admission from the
fresh engine (container height 350, so 10 lanes and the pre-created pool
of 50 slots), the number of distinct slots ever created is 50 while the
historical peak of simultaneously in-flight comments is 1. -/
theorem c8_pool_reuse_counterexample :
    (runPeak measure0 (initEngine 350, 0) [Ev.add 0 dmk0 900]).1.pool.length = 50 ∧
    (runPeak measure0 (initEngine 350, 0) [Ev.add 0 dmk0 900]).2 = 1 ∧
    (runPeak measure0 (initEngine 350, 0) [Ev.add 0 dmk0 900]).1.pool.length ≠
      (runPeak measure0 (initEngine 350, 0) [Ev.add 0 dmk0 900]).2 := by
  have hen : (initEngine 350).enabled = true := rfl
  have hft : findTrack (initEngine 350).trackStatus 0 = some 0 := by
    rw [initEngine_350_eq]
    show findTrack (List.replicate (9 + 1) 0) 0 = some 0
    rw [List.replicate_succ]
    simp [findTrack]
  have hfree : findFreeIdx (initEngine 350).pool = some 0 := by
    rw [initEngine_350_eq]
    show findFreeIdx (List.replicate (49 + 1) initSlot) = some 0
    rw [List.replicate_succ]
    simp [findFreeIdx, initSlot]
  have hget : getDanmakuElement (initEngine 350).pool = ((initEngine 350).pool, 0) := by
    rw [getDanmakuElement, hfree]
  have hstep := addFull_of_findTrack measure0 900 (initEngine 350) 0 dmk0 0 hen hft
  have hrun : runPeak measure0 (initEngine 350, 0) [Ev.add 0 dmk0 900] =
      ((addFull measure0 900 (initEngine 350) 0 dmk0).1,
        max 0 (countVisible (addFull measure0 900 (initEngine 350) 0 dmk0).1.pool)) := rfl
  have hrep0 : (initEngine 350).pool[0]? = some initSlot := by
    rw [initEngine_350_eq]
    rfl
  have hcnt0 : countVisible (initEngine 350).pool = 0 := by
    rw [initEngine_350_eq]
    exact countVisible_replicate poolSize
  have hlen0 : (initEngine 350).pool.length = 50 := by
    rw [initEngine_350_eq]
    rfl
  have hA : (runPeak measure0 (initEngine 350, 0) [Ev.add 0 dmk0 900]).1.pool.length = 50 := by
    rw [hrun, hstep]
    dsimp only
    rw [hget]
    dsimp only
    rw [List.length_set]
    exact hlen0
  have hB : (runPeak measure0 (initEngine 350, 0) [Ev.add 0 dmk0 900]).2 = 1 := by
    rw [hrun, hstep]
    dsimp only
    rw [hget]
    dsimp only
    rw [countVisible_set_true hrep0 rfl rfl, hcnt0]
    omega
  exact ⟨hA, hB, by rw [hA, hB]; decide⟩

end DanmakuSpec
